import Mathlib

/-!
Shallow embedding of the completion-statistics aggregation pipeline of
`src/lib/todoist.ts` (todoist-flow): `processTasks`, `calculateDayStats`,
`calculateProjectStats`, `calculateHourStats`, `calculateRecapStats`.

Modelling conventions:
* A JavaScript `Date` is its millisecond timestamp (`Int`); an invalid date
  (one with `isNaN(getTime())`) or a `null`/`undefined` date value is `none`
  in `Option Int`.  The local timezone is modelled as UTC, so `startOfDay`
  floors a timestamp to a multiple of 86400000 ms and the `"yyyy-MM-dd"` day
  key produced by `format` is represented by the day index
  `ms.fdiv 86400000`: on day indices the format string is injective and
  order-preserving, so equality and `localeCompare` ordering of the string
  keys coincide with equality and ordering of the indices.
* A JavaScript `Map` is an association list in insertion order with unique
  keys; `map.get` followed by mutation is an update of the first (hence only)
  matching entry, and `new Map(pairs)` makes later pairs override earlier
  ones, which a left fold over the pairs reproduces.
* `date-fns` `parseISO` composed with the `isNaN(getTime())` validity check
  is an abstract parameter `parseISO : String → Option Int`.
* JavaScript numbers used as counts are `Nat` (they only ever grow from 0 in
  steps of 1); timestamps, day indices and hours are `Int`; the fractional
  `thresholdPercent` is a rational, reading the float arithmetic of the
  source at its mathematical value.
* `Array.prototype.sort` with a comparator is a stable sort by the strict
  order the comparator describes, modelled by `stableSortBy` below.
-/

namespace TodoistFlow

/-- Raw completed-task record (`TodoistTask` in `types/todoist.ts`); a missing
`completed_at` arrives as `""` (see `fetchCompletedTasks`, which fills absent
fields with the empty string). -/
structure TodoistTask where
  id : String
  content : String
  completed_at : String
  project_id : String
  labels : List String
deriving DecidableEq

/-- `ProcessedTask`: the raw fields plus the derived `completedDate` and
`hour` attached by `processTasks`. -/
structure ProcessedTask where
  id : String
  content : String
  completed_at : String
  project_id : String
  labels : List String
  completedDate : Option Int
  hour : Int
deriving DecidableEq

/-- `TodoistProject` from `types/todoist.ts`. -/
structure TodoistProject where
  id : String
  name : String
  color : String
deriving DecidableEq

/-- `DayStats`: one bucket per calendar day; `date` is the day index standing
for the `"yyyy-MM-dd"` key. -/
structure DayStats where
  date : Int
  count : Nat
  tasks : List ProcessedTask
deriving DecidableEq

/-- `ProjectStats` bucket. -/
structure ProjectStats where
  projectId : String
  projectName : String
  count : Nat
  color : String
deriving DecidableEq

/-- `HourStats` bucket; `hour` is an `Int` because it is read off a
JavaScript number field and only defensively range-checked. -/
structure HourStats where
  hour : Int
  count : Nat
deriving DecidableEq

/-- The `bestDay` component of `RecapStats`. -/
structure BestDay where
  date : Int
  count : Nat
deriving DecidableEq

/-- The `topProject` component of `RecapStats`. -/
structure TopProject where
  name : String
  count : Nat
deriving DecidableEq

/-- `RecapStats` from `types/todoist.ts`. -/
structure RecapStats where
  totalDone : Nat
  currentStreak : Nat
  bestDay : BestDay
  topProject : TopProject
deriving DecidableEq

/-- Milliseconds per day. -/
def msPerDay : Int := 86400000

/-- Milliseconds per hour. -/
def msPerHour : Int := 3600000

/-- The calendar-day index of a timestamp: `startOfDay` followed by
`format(·, "yyyy-MM-dd")`, with the day key represented by the day number. -/
def dayIdx (ms : Int) : Int := ms.fdiv msPerDay

/-- `Date.prototype.getHours()` of a timestamp (local time modelled as UTC). -/
def getHours (ms : Int) : Int := (ms.fmod msPerDay).fdiv msPerHour

/-- The day key of a task's `completedDate`, `none` when the date is missing
or invalid (the `task.completedDate && !isNaN(...)` guard). -/
def taskDayKey (t : ProcessedTask) : Option Int := t.completedDate.map dayIdx

/-- `processTasks` (src/lib/todoist.ts:241-266): keep tasks with a truthy
`completed_at`, attach the parsed date and its hour, and drop tasks whose
timestamp fails to parse (the `try`/`catch` returning `null`, filtered out
afterwards).  The `Array.isArray` guard is vacuous for a `List` input, and
the function never throws. -/
def processTasks (parseISO : String → Option Int) (tasks : List TodoistTask) :
    List ProcessedTask :=
  ((tasks.filter (fun t => t.completed_at != "")).map (fun t =>
      match parseISO t.completed_at with
      | some ms =>
          some { id := t.id, content := t.content, completed_at := t.completed_at,
                 project_id := t.project_id, labels := t.labels,
                 completedDate := some ms, hour := getHours ms }
      | none => none)).filterMap id

/-- Forget the derived fields of a `ProcessedTask` again. -/
def toRawTask (t : ProcessedTask) : TodoistTask :=
  { id := t.id, content := t.content, completed_at := t.completed_at,
    project_id := t.project_id, labels := t.labels }

/-- Insert `x` into `acc` before the first element `y` with `lt x y`; this is
the insertion step of a stable comparator sort. -/
def insertSorted (lt : α → α → Bool) : List α → α → List α
  | [], x => [x]
  | y :: ys, x => if lt x y then x :: y :: ys else y :: insertSorted lt ys x

/-- `Array.prototype.sort` with the strict comparator `lt`, as a stable
insertion sort. -/
def stableSortBy (lt : α → α → Bool) (l : List α) : List α :=
  l.foldl (insertSorted lt) []

/-- The day-initialization loop of `calculateDayStats` (todoist.ts:284-297):
starting from `startOfDay(startDate)`, insert one empty key per day while the
current day is not after `startOfDay(endDate)`; stepping to the next calendar
day is `+1` on day indices, and the defensive `nextDay == currentDate` break
is kept even though day indices always move. -/
def initDays (cur endD : Int) : List Int :=
  if endD < cur then []
  else if cur + 1 = cur then [cur]
  else cur :: initDays (cur + 1) endD
termination_by (endD + 1 - cur).toNat
decreasing_by omega

/-- A freshly initialized day bucket (`{ date, count: 0, tasks: [] }`). -/
def emptyBucket (d : Int) : DayStats := { date := d, count := 0, tasks := [] }

/-- `stats.get(dateKey)` followed by `count++; tasks.push(task)`: update the
first (only) bucket whose key is `k`, leave the list unchanged when the key is
absent (the out-of-range warning branch). -/
def bumpDay (k : Int) (t : ProcessedTask) : List DayStats → List DayStats
  | [] => []
  | ds :: rest =>
    if ds.date = k then
      { ds with count := ds.count + 1, tasks := ds.tasks ++ [t] } :: rest
    else ds :: bumpDay k t rest

/-- One `tasks.forEach` step of `calculateDayStats` (todoist.ts:299-312): a
task with a missing or invalid `completedDate` is dropped with a warning. -/
def addTaskToDay (statsList : List DayStats) (t : ProcessedTask) : List DayStats :=
  match taskDayKey t with
  | some k => bumpDay k t statsList
  | none => statsList

/-- The final `.sort((a, b) => a.date.localeCompare(b.date))`. -/
def sortByDateAsc (l : List DayStats) : List DayStats :=
  stableSortBy (fun a b => decide (a.date < b.date)) l

/-- `calculateDayStats` (todoist.ts:269-315): an invalid or reversed range
short-circuits to `[]`; otherwise one empty bucket per day of the range is
initialized, tasks are bucketed by completion day, and the buckets are sorted
by date. -/
def calculateDayStats (tasks : List ProcessedTask) (startDate endDate : Option Int) :
    List DayStats :=
  match startDate, endDate with
  | some s, some e =>
    if e < s then []
    else
      sortByDateAsc
        (tasks.foldl addTaskToDay ((initDays (dayIdx s) (dayIdx e)).map emptyBucket))
  | _, _ => []

/-- The sub-sequence of `tasks` whose completion day is `d`, in input order. -/
def dayFilter (tasks : List ProcessedTask) (d : Int) : List ProcessedTask :=
  tasks.filter (fun t => taskDayKey t == some d)

/-- The fully populated bucket list over the day keys `R`: the closed form
that the initialization-plus-population loops of `calculateDayStats` reach. -/
def bucketsFor (R : List Int) (tasks : List ProcessedTask) : List DayStats :=
  R.map (fun d =>
    { date := d, count := (dayFilter tasks d).length, tasks := dayFilter tasks d })

/-- Whether a task's completion day lies in the key list `R`. -/
def keyMem (t : ProcessedTask) (R : List Int) : Bool :=
  match taskDayKey t with
  | some k => decide (k ∈ R)
  | none => false

/-- Whether a task's completion day falls within the calendar-day range of
`[s, e]` (both timestamps); tasks with a missing or invalid date never do. -/
def inRangeDay (s e : Int) (t : ProcessedTask) : Bool :=
  match taskDayKey t with
  | some k => decide (dayIdx s ≤ k) && decide (k ≤ dayIdx e)
  | none => false

/-- `new Map(projects.map(p => [p.id, p])).get(pid)`: the last project with a
given id wins. -/
def projectLookup (projects : List TodoistProject) (pid : String) : Option TodoistProject :=
  projects.foldl (fun acc p => if p.id = pid then some p else acc) none

/-- The `(projectKey, projectName, projectColor)` triple computed for one task
in the first pass of `calculateProjectStats` (todoist.ts:346-363). -/
def projectKeyInfo (projects : List TodoistProject) (t : ProcessedTask) :
    String × String × String :=
  if t.project_id = "" then ("no-project", "No Project", "#808080")
  else
    match projectLookup projects t.project_id with
    | some p =>
        (t.project_id,
         if p.name = "" then "Unnamed Project " ++ p.id else p.name,
         if p.color = "" then "#808080" else p.color)
    | none =>
        ("unknown-" ++ t.project_id,
         "Unknown/Archived (" ++ t.project_id ++ ")",
         "#808080")

/-- `stats.get(projectKey)` followed by `count++`, or insertion of a fresh
bucket with count 1 at the end (JS `Map` insertion order). -/
def bumpProject (key name color : String) : List ProjectStats → List ProjectStats
  | [] => [{ projectId := key, projectName := name, count := 1, color := color }]
  | s :: rest =>
    if s.projectId = key then { s with count := s.count + 1 } :: rest
    else s :: bumpProject key name color rest

/-- The first pass of `calculateProjectStats`: one running bucket per distinct
project key, in first-encounter order. -/
def projectFirstPass (tasks : List ProcessedTask) (projects : List TodoistProject) :
    List ProjectStats :=
  tasks.foldl
    (fun st t =>
      bumpProject (projectKeyInfo projects t).1 (projectKeyInfo projects t).2.1
        (projectKeyInfo projects t).2.2 st) []

/-- `Math.max(1, Math.min(minThresholdCount, Math.floor(totalTasks * thresholdPercent)))`
(todoist.ts:384-385). -/
def actualThreshold (totalTasks : Nat) (thresholdPercent : ℚ) (minThresholdCount : Int) :
    Int :=
  max 1 (min minThresholdCount ⌊(totalTasks : ℚ) * thresholdPercent⌋)

/-- The grouping condition of the second pass:
`stat.count < actualThreshold && stat.projectId !== "no-project"`. -/
def isSmallProject (thr : Int) (s : ProjectStats) : Bool :=
  decide ((s.count : Int) < thr) && decide (s.projectId ≠ "no-project")

/-- One `allProjectStats.forEach` step of the second pass: fold a small bucket
into the running `otherCount`, keep any other bucket. -/
def collapseStep (thr : Int) (acc : List ProjectStats × Nat) (s : ProjectStats) :
    List ProjectStats × Nat :=
  if isSmallProject thr s then (acc.1, acc.2 + s.count)
  else (acc.1 ++ [s], acc.2)

/-- The synthetic `"other-projects"` bucket with accumulated count `n`. -/
def otherBucket (n : Nat) : ProjectStats :=
  { projectId := "other-projects", projectName := "Other", count := n, color := "#A0A0A0" }

/-- The count folded into "Other": the total of the first-pass buckets that
the second pass groups away. -/
def foldedOtherCount (tasks : List ProcessedTask) (projects : List TodoistProject)
    (thresholdPercent : ℚ) (minThresholdCount : Int) : Nat :=
  (((projectFirstPass tasks projects).filter
      (isSmallProject (actualThreshold tasks.length thresholdPercent minThresholdCount))).map
    ProjectStats.count).sum

/-- The final `.sort((a, b) => b.count - a.count)`. -/
def sortByCountDesc (l : List ProjectStats) : List ProjectStats :=
  stableSortBy (fun a b => decide (b.count < a.count)) l

/-- `calculateProjectStats` (todoist.ts:318-410): first pass builds per-key
buckets; the second pass folds buckets below `actualThreshold` (except
`"no-project"`) into an `"Other"` bucket, appended only when its count is
positive; the result is sorted by descending count.  `totalTasks` equals
`tasks.length` because every (non-null) task increments it. -/
def calculateProjectStats (tasks : List ProcessedTask) (projects : List TodoistProject)
    (thresholdPercent : ℚ) (minThresholdCount : Int) : List ProjectStats :=
  let allProjectStats := projectFirstPass tasks projects
  let actualThr := actualThreshold tasks.length thresholdPercent minThresholdCount
  let folded := allProjectStats.foldl (collapseStep actualThr) ([], 0)
  let finalStats :=
    if 0 < folded.2 then folded.1 ++ [otherBucket folded.2] else folded.1
  sortByCountDesc finalStats

/-- One `tasks.forEach` step of `calculateHourStats` (todoist.ts:425-432): a
task whose `hour` lies in `[0, 23]` bumps that slot; any other task is dropped
with a warning (and, the 24 slots being pre-initialized, no new key can ever
be added). -/
def hourBump (m : Int → Nat) (t : ProcessedTask) : Int → Nat :=
  if 0 ≤ t.hour ∧ t.hour ≤ 23 then
    fun h => if h = t.hour then m h + 1 else m h
  else m

/-- The per-hour counters after the `forEach`, starting from the 24 slots
initialized to 0. -/
def hourCounts (tasks : List ProcessedTask) : Int → Nat :=
  tasks.foldl hourBump (fun _ => 0)

/-- The final `.sort((a, b) => a.hour - b.hour)`. -/
def sortByHourAsc (l : List HourStats) : List HourStats :=
  stableSortBy (fun a b => decide (a.hour < b.hour)) l

/-- `calculateHourStats` (todoist.ts:414-437): the map's entries are the hours
0..23 in insertion order with their final counters, then sorted ascending. -/
def calculateHourStats (tasks : List ProcessedTask) : List HourStats :=
  sortByHourAsc
    ((List.range 24).map
      (fun h : Nat => { hour := (h : Int), count := hourCounts tasks (h : Int) }))

/-- `new Map(dayStats.map(d => [d.date, d.count]))` as a lookup: the last
bucket with a given date wins. -/
def dayLookup (dayStats : List DayStats) (d : Int) : Option Nat :=
  dayStats.foldl (fun acc ds => if ds.date = d then some ds.count else acc) none

/-- The earliest bucket date: the dates sorted ascending (`localeCompare` on
keys is the order on day indices), then the head (todoist.ts:454-455). -/
def earliestDate (dayStats : List DayStats) : Option Int :=
  (stableSortBy (fun a b : Int => decide (a < b)) (dayStats.map DayStats.date)).head?

/-- One iteration of the streak `while (true)` body (todoist.ts:457-476),
before the day decrement: `some s` means the loop goes on with streak `s`,
`none` means one of the `break`s fired with the streak unchanged. -/
def streakStep (dayMap : Int → Option Nat) (earliest : Option Int)
    (todayIdx current : Int) (streak : Nat) : Option Nat :=
  match dayMap current with
  | some c =>
      if 0 < c then some (streak + 1)
      else if current = todayIdx then some streak
      else none
  | none =>
      if (match earliest with | some e => decide (current < e) | none => false) then none
      else if 0 < streak then none
      else some streak

/-- The streak `while (true)` loop (todoist.ts:457-488): after each surviving
iteration the day moves back by one, unless the safety break fires because
`differenceInDays(new Date(), prevDay) > 730` (equivalently
`todayIdx - prev > 730`, as `prevDay` is a midnight) — the defensive
`prevDay == currentDate` break is kept even though day indices always move. -/
def streakLoop (dayMap : Int → Option Nat) (earliest : Option Int)
    (todayIdx current : Int) (streak : Nat) : Nat :=
  match streakStep dayMap earliest todayIdx current streak with
  | none => streak
  | some s =>
      if 730 < todayIdx - (current - 1) ∨ current - 1 = current then s
      else streakLoop dayMap earliest todayIdx (current - 1) s
termination_by (current + 731 - todayIdx).toNat
decreasing_by
  rename_i h
  rw [not_or] at h
  omega

/-- The `bestDay` reduction callback (todoist.ts:492-495): replace the
running best only on a strictly greater count; the seed's `""` date is
`none`. -/
def bestDayStep (best : Option Int × Nat) (d : DayStats) : Option Int × Nat :=
  if best.2 < d.count then (some d.date, d.count) else best

/-- `calculateRecapStats` (todoist.ts:440-512).  Every use of `new Date()`
inside one call is the ambient current time, passed here as the day index
`todayIdx` of today's local midnight (the only aspect of "now" the function
reads: `startOfDay(new Date())`, `format(new Date(), "yyyy-MM-dd")`, and
`differenceInDays(new Date(), prevDay)` for midnight `prevDay` all factor
through it). -/
def calculateRecapStats (todayIdx : Int) (dayStats : List DayStats)
    (projectStats : List ProjectStats) : RecapStats :=
  let totalDone := dayStats.foldl (fun sum d => sum + d.count) 0
  let currentStreak :=
    if dayStats.isEmpty then 0
    else streakLoop (dayLookup dayStats) (earliestDate dayStats) todayIdx todayIdx 0
  let best := dayStats.foldl bestDayStep ((none : Option Int), 0)
  { totalDone := totalDone
    currentStreak := currentStreak
    bestDay := { date := best.1.getD todayIdx, count := best.2 }
    topProject :=
      match projectStats with
      | [] => { name := "N/A", count := 0 }
      | p :: _ =>
          { name := if p.projectName = "" then "N/A" else p.projectName
            count := p.count } }

/-- Modelled from the spec (§4.5 `currentStreak`, step shared by C1's
reference walk): the decision at one visited day.  A day present with count
> 0 increments the streak and continues; a day absent stops if strictly
before the earliest bucket date, stops if a streak is in progress, and
otherwise continues; a day present with count 0 stops unless it is today. -/
def specStep (lookup : Int → Option Nat) (earliest : Option Int)
    (todayIdx day : Int) (streak : Nat) : Option Nat :=
  match lookup day with
  | some c =>
      if 0 < c then some (streak + 1)
      else if day = todayIdx then some streak
      else none
  | none =>
      if (match earliest with | some e => decide (day < e) | none => false) then none
      else if 0 < streak then none
      else some streak

/-- Modelled from the spec (§4.5 `currentStreak`): the reference backward
walk.  Day `k` of the walk is `todayIdx - k` (today's local midnight at
`k = 0`); the walk stops unconditionally rather than going back more than
730 days. -/
def specStreakWalk (lookup : Int → Option Nat) (earliest : Option Int)
    (todayIdx : Int) (k streak : Nat) : Nat :=
  match specStep lookup earliest todayIdx (todayIdx - (k : Int)) streak with
  | none => streak
  | some s => if 730 < k + 1 then s else specStreakWalk lookup earliest todayIdx (k + 1) s
termination_by 731 - k
decreasing_by omega

/-- Modelled from the spec (§4.5 `currentStreak`): the reference current
streak, walking back from today over the lookup built from the day buckets. -/
def specCurrentStreak (todayIdx : Int) (dayBuckets : List DayStats) : Nat :=
  specStreakWalk (dayLookup dayBuckets) (earliestDate dayBuckets) todayIdx 0 0

/-- A concrete normalized task completed at the epoch, for the witnesses. -/
def sampleTask : ProcessedTask :=
  { id := "1", content := "t", completed_at := "1970-01-01T00:00:00Z",
    project_id := "p1", labels := [], completedDate := some 0, hour := 0 }

theorem insertSorted_perm (lt : α → α → Bool) (acc : List α) (x : α) :
    (insertSorted lt acc x).Perm (x :: acc) := by
  induction acc with
  | nil => rfl
  | cons y ys ih =>
    by_cases h : lt x y
    · simp [insertSorted, h]
    · simpa [insertSorted, h] using
        ((ih.cons y).trans (List.Perm.swap x y ys))

theorem foldl_insertSorted_perm (lt : α → α → Bool) (l acc : List α) :
    (l.foldl (insertSorted lt) acc).Perm (acc ++ l) := by
  induction l generalizing acc with
  | nil => simp
  | cons x xs ih =>
    have h1 : (x :: xs).foldl (insertSorted lt) acc
        = xs.foldl (insertSorted lt) (insertSorted lt acc x) := rfl
    have h2 : (xs.foldl (insertSorted lt) (insertSorted lt acc x)).Perm
        (insertSorted lt acc x ++ xs) := ih _
    have h3 : (insertSorted lt acc x ++ xs).Perm ((x :: acc) ++ xs) :=
      (insertSorted_perm lt acc x).append_right xs
    have h4 : ((x :: acc) ++ xs).Perm (acc ++ x :: xs) := by
      simpa using (@List.perm_middle _ x acc xs).symm
    exact h1 ▸ (h2.trans (h3.trans h4))

theorem stableSortBy_perm (lt : α → α → Bool) (l : List α) :
    (stableSortBy lt l).Perm l := by
  simpa [stableSortBy] using foldl_insertSorted_perm lt l []

theorem insertSorted_last (lt : α → α → Bool) (acc : List α) (x : α)
    (h : ∀ y ∈ acc, lt x y = false) :
    insertSorted lt acc x = acc ++ [x] := by
  induction acc with
  | nil => rfl
  | cons y ys ih =>
    have hy : lt x y = false := h y (by simp)
    simp only [insertSorted, hy, Bool.false_eq_true, if_false, List.cons_append,
      List.cons.injEq, true_and]
    exact ih fun z hz => h z (by simp [hz])

theorem foldl_insertSorted_sorted (lt : α → α → Bool) (l acc : List α)
    (hl : l.Pairwise (fun a b => lt b a = false))
    (hacc : ∀ a ∈ acc, ∀ b ∈ l, lt b a = false) :
    l.foldl (insertSorted lt) acc = acc ++ l := by
  induction l generalizing acc with
  | nil => simp
  | cons x xs ih =>
    have hx : insertSorted lt acc x = acc ++ [x] :=
      insertSorted_last lt acc x fun y hy => hacc y hy x (by simp)
    have hxs : xs.foldl (insertSorted lt) (acc ++ [x]) = (acc ++ [x]) ++ xs := by
      refine ih (acc ++ [x]) hl.tail ?_
      intro a ha b hb
      rcases List.mem_append.mp ha with ha' | ha'
      · exact hacc a ha' b (by simp [hb])
      · have : a = x := by simpa using ha'
        subst this
        exact List.rel_of_pairwise_cons hl hb
    have hstep : (x :: xs).foldl (insertSorted lt) acc
        = xs.foldl (insertSorted lt) (insertSorted lt acc x) := rfl
    rw [hstep, hx, hxs]
    simp

/-- On input already strictly sorted for the comparator, the sort is the
identity. -/
theorem stableSortBy_eq_self (lt : α → α → Bool) (l : List α)
    (hl : l.Pairwise (fun a b => lt b a = false)) :
    stableSortBy lt l = l := by
  simpa [stableSortBy] using
    foldl_insertSorted_sorted lt l [] hl (by intro a ha; cases ha)

theorem initDays_unfold (cur endD : Int) :
    initDays cur endD = if endD < cur then [] else cur :: initDays (cur + 1) endD := by
  rw [initDays]
  have h : ¬(cur + 1 = cur) := by omega
  by_cases h0 : endD < cur <;> simp [h0, h]

theorem initDays_eq_range (n : Nat) :
    ∀ a b : Int, (b + 1 - a).toNat = n →
      initDays a b = (List.range n).map (fun i : Nat => a + (i : Int)) := by
  induction n with
  | zero =>
    intro a b hn
    have hba : b < a := by omega
    rw [initDays_unfold, if_pos hba]
    simp
  | succ m ih =>
    intro a b hn
    have hab : ¬(b < a) := by omega
    have hm : (b + 1 - (a + 1)).toNat = m := by omega
    rw [initDays_unfold, if_neg hab, ih (a + 1) b hm, List.range_succ_eq_map]
    simp only [List.map_cons, List.map_map]
    refine List.cons_eq_cons.mpr ⟨by simp, ?_⟩
    apply List.map_congr_left
    intro i _
    simp only [Function.comp_apply, Nat.succ_eq_add_one]
    push_cast
    ring

theorem initDays_length (a b : Int) :
    (initDays a b).length = (b + 1 - a).toNat := by
  rw [initDays_eq_range ((b + 1 - a).toNat) a b rfl,
    List.length_map, List.length_range]

theorem initDays_pairwise (a b : Int) :
    (initDays a b).Pairwise (· < ·) := by
  rw [initDays_eq_range ((b + 1 - a).toNat) a b rfl]
  refine List.pairwise_map.mpr ?_
  refine (List.pairwise_lt_range _).imp ?_
  intro i j hij
  omega

theorem initDays_nodup (a b : Int) : (initDays a b).Nodup :=
  (initDays_pairwise a b).imp Int.ne_of_lt

theorem mem_initDays {a b d : Int} : d ∈ initDays a b ↔ a ≤ d ∧ d ≤ b := by
  rw [initDays_eq_range ((b + 1 - a).toNat) a b rfl]
  simp only [List.mem_map, List.mem_range]
  constructor
  · rintro ⟨i, hi, rfl⟩
    omega
  · rintro ⟨h1, h2⟩
    refine ⟨(d - a).toNat, by omega, by omega⟩

theorem dayIdx_mono {a b : Int} (h : a ≤ b) : dayIdx a ≤ dayIdx b := by
  have h1 := Int.fdiv_add_fmod a msPerDay
  have h2 := Int.fdiv_add_fmod b msPerDay
  have h3 : 0 ≤ a.fmod msPerDay := Int.fmod_nonneg' a (by norm_num [msPerDay])
  have h4 : 0 ≤ b.fmod msPerDay := Int.fmod_nonneg' b (by norm_num [msPerDay])
  have h5 : a.fmod msPerDay < msPerDay := Int.fmod_lt_of_pos a (by norm_num [msPerDay])
  have h6 : b.fmod msPerDay < msPerDay := Int.fmod_lt_of_pos b (by norm_num [msPerDay])
  simp only [dayIdx, msPerDay] at *
  omega

theorem dayFilter_append_one (tasks : List ProcessedTask) (t : ProcessedTask) (d : Int) :
    dayFilter (tasks ++ [t]) d
      = dayFilter tasks d ++ (if taskDayKey t == some d then [t] else []) := by
  unfold dayFilter
  rw [List.filter_append]
  cases h : (taskDayKey t == some d) <;> simp [h]

theorem bumpDay_bucketsFor (k : Int) (t : ProcessedTask) (hk : taskDayKey t = some k) :
    ∀ R : List Int, R.Nodup → ∀ ts : List ProcessedTask,
      bumpDay k t (bucketsFor R ts) = bucketsFor R (ts ++ [t]) := by
  intro R
  induction R with
  | nil => intro _ ts; rfl
  | cons d R' ih =>
    intro hR ts
    have hd : d ∉ R' := (List.nodup_cons.mp hR).1
    have hR' : R'.Nodup := (List.nodup_cons.mp hR).2
    by_cases hdk : d = k
    · subst hdk
      have hpred : (taskDayKey t == some d) = true := by simp [hk]
      have hfilter : dayFilter (ts ++ [t]) d = dayFilter ts d ++ [t] := by
        rw [dayFilter_append_one, if_pos hpred]
      have htail : ∀ d' ∈ R', dayFilter (ts ++ [t]) d' = dayFilter ts d' := by
        intro d' hd'
        have : (taskDayKey t == some d') = false := by
          rw [hk]
          simp only [beq_eq_false_iff_ne, ne_eq, Option.some.injEq]
          intro hdd
          exact hd (hdd ▸ hd')
        rw [dayFilter_append_one, this]
        simp
      simp only [bucketsFor, List.map_cons, bumpDay, if_pos rfl]
      refine List.cons_eq_cons.mpr ⟨?_, ?_⟩
      · simp [hfilter]
      · apply List.map_congr_left
        intro d' hd'
        rw [htail d' hd']
    · have hpred : (taskDayKey t == some d) = false := by
        rw [hk]
        simp only [beq_eq_false_iff_ne, ne_eq, Option.some.injEq]
        intro hdd
        exact hdk hdd.symm
      have hhead : dayFilter (ts ++ [t]) d = dayFilter ts d := by
        rw [dayFilter_append_one, hpred]
        simp
      have hne : ¬(d = k) := hdk
      simp only [bucketsFor, List.map_cons, bumpDay, if_neg hne]
      refine List.cons_eq_cons.mpr ⟨by simp [hhead], ?_⟩
      simpa [bucketsFor] using ih hR' ts

theorem addTaskToDay_bucketsFor (R : List Int) (hR : R.Nodup)
    (ts : List ProcessedTask) (t : ProcessedTask) :
    addTaskToDay (bucketsFor R ts) t = bucketsFor R (ts ++ [t]) := by
  unfold addTaskToDay
  cases hk : taskDayKey t with
  | none =>
    unfold bucketsFor
    apply List.map_congr_left
    intro d _
    have : dayFilter (ts ++ [t]) d = dayFilter ts d := by
      rw [dayFilter_append_one]
      simp [hk]
    rw [this]
  | some k => exact bumpDay_bucketsFor k t hk R hR ts

theorem foldl_addTaskToDay (R : List Int) (hR : R.Nodup) :
    ∀ extra ts : List ProcessedTask,
      extra.foldl addTaskToDay (bucketsFor R ts) = bucketsFor R (ts ++ extra) := by
  intro extra
  induction extra with
  | nil => intro ts; simp
  | cons t extra ih =>
    intro ts
    have h1 : (t :: extra).foldl addTaskToDay (bucketsFor R ts)
        = extra.foldl addTaskToDay (addTaskToDay (bucketsFor R ts) t) := rfl
    rw [h1, addTaskToDay_bucketsFor R hR ts t, ih (ts ++ [t])]
    simp

theorem bucketsFor_map_date (R : List Int) (tasks : List ProcessedTask) :
    (bucketsFor R tasks).map DayStats.date = R := by
  unfold bucketsFor
  rw [List.map_map]
  have h : (DayStats.date ∘ fun d =>
      ({ date := d, count := (dayFilter tasks d).length,
         tasks := dayFilter tasks d } : DayStats)) = fun d => d := rfl
  rw [h]
  exact List.map_id' R

theorem bucketsFor_pairwise_lt (R : List Int) (tasks : List ProcessedTask)
    (hR : R.Pairwise (· < ·)) :
    (bucketsFor R tasks).Pairwise (fun a b => decide (b.date < a.date) = false) := by
  unfold bucketsFor
  refine List.pairwise_map.mpr ?_
  refine hR.imp ?_
  intro d1 d2 h12
  simpa using le_of_lt h12

/-- Over a valid range, `calculateDayStats` equals the closed-form bucket
list: the initialized keys carry exactly the in-order filter of the tasks
by day. -/
theorem calculateDayStats_eq_bucketsFor (tasks : List ProcessedTask) (s e : Int)
    (hse : s ≤ e) :
    calculateDayStats tasks (some s) (some e)
      = bucketsFor (initDays (dayIdx s) (dayIdx e)) tasks := by
  have hnot : ¬(e < s) := not_lt.mpr hse
  have hc : calculateDayStats tasks (some s) (some e)
      = if e < s then []
        else sortByDateAsc
          (tasks.foldl addTaskToDay
            ((initDays (dayIdx s) (dayIdx e)).map emptyBucket)) := rfl
  rw [hc, if_neg hnot]
  have h0 : (initDays (dayIdx s) (dayIdx e)).map emptyBucket
      = bucketsFor (initDays (dayIdx s) (dayIdx e)) [] := rfl
  rw [h0, foldl_addTaskToDay _ (initDays_nodup _ _) tasks [], List.nil_append]
  unfold sortByDateAsc
  exact stableSortBy_eq_self _ _ (bucketsFor_pairwise_lt _ _ (initDays_pairwise _ _))

theorem keyMem_nil (t : ProcessedTask) : keyMem t [] = false := by
  cases h : taskDayKey t <;> simp [keyMem, h]

theorem keyMem_filter_cons_length (d : Int) (R : List Int) (hd : d ∉ R)
    (tasks : List ProcessedTask) :
    (tasks.filter (fun t => keyMem t (d :: R))).length
      = (dayFilter tasks d).length + (tasks.filter (fun t => keyMem t R)).length := by
  induction tasks with
  | nil => rfl
  | cons t ts ih =>
    cases hk : taskDayKey t with
    | none =>
      simp only [List.filter_cons, keyMem, hk, dayFilter, Bool.false_eq_true, if_false]
      exact ih
    | some k =>
      by_cases hkd : k = d
      · subst hkd
        have h1 : keyMem t (k :: R) = true := by simp [keyMem, hk]
        have h2 : keyMem t R = false := by simp [keyMem, hk, hd]
        have h3 : (taskDayKey t == some k) = true := by simp [hk]
        simp only [List.filter_cons, h1, h2, dayFilter, h3, Bool.false_eq_true, if_false,
          if_true, List.length_cons]
        unfold dayFilter at ih
        omega
      · have h3 : (taskDayKey t == some d) = false := by simp [hk, hkd]
        have h1 : keyMem t (d :: R) = keyMem t R := by
          simp [keyMem, hk, List.mem_cons, hkd]
        simp only [List.filter_cons, h1, dayFilter, h3, Bool.false_eq_true, if_false]
        unfold dayFilter at ih
        cases h4 : keyMem t R <;> simp only [h4, if_true, if_false, Bool.false_eq_true,
          List.length_cons] <;> omega

theorem sum_bucketsFor_counts (R : List Int) (hR : R.Nodup)
    (tasks : List ProcessedTask) :
    ((bucketsFor R tasks).map DayStats.count).sum
      = (tasks.filter (fun t => keyMem t R)).length := by
  induction R with
  | nil => simp [bucketsFor, keyMem_nil]
  | cons d R' ih =>
    have hd : d ∉ R' := (List.nodup_cons.mp hR).1
    have hR' : R'.Nodup := (List.nodup_cons.mp hR).2
    rw [keyMem_filter_cons_length d R' hd tasks]
    simp only [bucketsFor, List.map_cons, List.map_map, List.sum_cons]
    rw [← ih hR']
    simp [bucketsFor, List.map_map]

/-- C7: `processTasks` returns exactly those input tasks whose `completed_at`
is non-empty and parses to a valid date, in the input's relative order (the
result projects, task by task, to the filtered input list); being a total
function, it never throws. -/
theorem processTasks_keeps_exactly_parsable (parseISO : String → Option Int)
    (tasks : List TodoistTask) :
    (processTasks parseISO tasks).map toRawTask
      = tasks.filter
          (fun t => t.completed_at != "" && (parseISO t.completed_at).isSome) := by
  induction tasks with
  | nil => rfl
  | cons t ts ih =>
    by_cases h1 : t.completed_at = ""
    · have hfalse : (t.completed_at != "") = false := by simp [h1]
      simpa [processTasks, List.filter_cons, hfalse] using ih
    · have htrue : (t.completed_at != "") = true := by simp [h1]
      cases hp : parseISO t.completed_at with
      | some ms =>
          simpa [processTasks, List.filter_cons, htrue, hp, toRawTask] using ih
      | none =>
          simpa [processTasks, List.filter_cons, htrue, hp] using ih

/-- C2: over a valid range with `start ≤ end`, `calculateDayStats` returns
one bucket per calendar day from `floor(start)` to `floor(end)` inclusive —
the date sequence is exactly `floor(start), floor(start)+1, …, floor(end)`,
hence strictly ascending and gap-free — and the number of buckets is
`daysBetween(start, end) + 1`; in particular `start = end` yields exactly
one bucket.  This holds for every task input. -/
theorem calculateDayStats_density (tasks : List ProcessedTask) (s e : Int)
    (hse : s ≤ e) :
    (calculateDayStats tasks (some s) (some e)).map DayStats.date
        = (List.range ((dayIdx e - dayIdx s).toNat + 1)).map
            (fun i : Nat => dayIdx s + (i : Int))
      ∧ (calculateDayStats tasks (some s) (some e)).length
          = (dayIdx e - dayIdx s).toNat + 1 := by
  have hd : dayIdx s ≤ dayIdx e := dayIdx_mono hse
  have hn : (dayIdx e + 1 - dayIdx s).toNat = (dayIdx e - dayIdx s).toNat + 1 := by
    omega
  rw [calculateDayStats_eq_bucketsFor tasks s e hse]
  constructor
  · rw [bucketsFor_map_date,
      initDays_eq_range ((dayIdx e - dayIdx s).toNat + 1) _ _ hn]
  · unfold bucketsFor
    rw [List.length_map, initDays_length]
    omega

/-- Witness for C2 at the one-day range `start = end = 0` with no tasks:
exactly one bucket. -/
theorem calculateDayStats_density_witness :
    (calculateDayStats [] (some 0) (some 0)).length = 1 := by
  have h := (calculateDayStats_density [] 0 0 (by norm_num)).2
  simpa [dayIdx, msPerDay] using h

/-- C3: over a valid range, the bucket counts of `calculateDayStats` sum to
the number of input tasks whose completion day falls within `[start, end]`;
tasks outside the range (or without a valid completion date) are counted in
no bucket, and the initialized range is never extended. -/
theorem calculateDayStats_conservation (tasks : List ProcessedTask) (s e : Int)
    (hse : s ≤ e) :
    ((calculateDayStats tasks (some s) (some e)).map DayStats.count).sum
      = (tasks.filter (inRangeDay s e)).length := by
  rw [calculateDayStats_eq_bucketsFor tasks s e hse,
    sum_bucketsFor_counts _ (initDays_nodup _ _)]
  congr 1
  apply List.filter_congr
  intro t _
  cases hk : taskDayKey t with
  | none => simp [keyMem, inRangeDay, hk]
  | some k => simp [keyMem, inRangeDay, hk, mem_initDays]

/-- Witness for C3: one task completed on the single in-range day is counted
exactly once. -/
theorem calculateDayStats_conservation_witness :
    ((calculateDayStats [sampleTask] (some 0) (some 0)).map DayStats.count).sum
      = 1 := by
  have h := calculateDayStats_conservation [sampleTask] 0 0 (by norm_num)
  rw [h]
  decide

/-- C6: an absent/invalid `start` or `end`, or `start` strictly after `end`,
makes `calculateDayStats` return the empty bucket list — for every task
input, and without throwing (the function is total). -/
theorem calculateDayStats_invalid_range (tasks : List ProcessedTask)
    (startDate endDate : Option Int)
    (h : startDate = none ∨ endDate = none
        ∨ ∃ s e, startDate = some s ∧ endDate = some e ∧ e < s) :
    calculateDayStats tasks startDate endDate = [] := by
  cases startDate with
  | none => rfl
  | some s =>
    cases endDate with
    | none => rfl
    | some e =>
      rcases h with h | h | ⟨s', e', hs, he, hlt⟩
      · cases h
      · cases h
      · cases hs
        cases he
        have hc : calculateDayStats tasks (some s) (some e)
            = if e < s then []
              else sortByDateAsc
                (tasks.foldl addTaskToDay
                  ((initDays (dayIdx s) (dayIdx e)).map emptyBucket)) := rfl
        rw [hc, if_pos hlt]

/-- Witness for C6 at the reversed range `start = day 1`, `end = day 0`. -/
theorem calculateDayStats_invalid_range_witness :
    calculateDayStats [sampleTask] (some 1) (some 0) = [] :=
  calculateDayStats_invalid_range [sampleTask] (some 1) (some 0)
    (Or.inr (Or.inr ⟨1, 0, rfl, rfl, by norm_num⟩))

/-- C10: every bucket returned by `calculateDayStats` lists exactly that
day's tasks in the same relative order in which they appear in the input
sequence (the bucket's task list is the in-order filter of the input by the
bucket's day). -/
theorem calculateDayStats_bucket_tasks_in_input_order (tasks : List ProcessedTask)
    (startDate endDate : Option Int) (b : DayStats)
    (hb : b ∈ calculateDayStats tasks startDate endDate) :
    b.tasks = tasks.filter (fun t => taskDayKey t == some b.date) := by
  cases startDate with
  | none => cases hb
  | some s =>
    cases endDate with
    | none => cases hb
    | some e =>
      by_cases hlt : e < s
      · have hc : calculateDayStats tasks (some s) (some e)
            = if e < s then []
              else sortByDateAsc
                (tasks.foldl addTaskToDay
                  ((initDays (dayIdx s) (dayIdx e)).map emptyBucket)) := rfl
        rw [hc, if_pos hlt] at hb
        cases hb
      · have hse : s ≤ e := not_lt.mp hlt
        rw [calculateDayStats_eq_bucketsFor tasks s e hse] at hb
        obtain ⟨d, _, rfl⟩ := List.mem_map.mp hb
        rfl

/-- Witness for C10: the single bucket of a one-task, one-day range holds
that task, matching the in-order filter of the input. -/
theorem calculateDayStats_bucket_tasks_witness :
    ({ date := 0, count := 1, tasks := [sampleTask] } : DayStats).tasks
      = [sampleTask].filter (fun t =>
          taskDayKey t
            == some ({ date := 0, count := 1, tasks := [sampleTask] } : DayStats).date) := by
  refine calculateDayStats_bucket_tasks_in_input_order [sampleTask] (some 0) (some 0)
    { date := 0, count := 1, tasks := [sampleTask] } ?_
  rw [calculateDayStats_eq_bucketsFor [sampleTask] 0 0 (by norm_num)]
  have h00 : initDays (dayIdx 0) (dayIdx 0) = [0] := by
    have hz : dayIdx 0 = 0 := by simp [dayIdx]
    rw [hz, initDays_unfold, if_neg (by omega), initDays_unfold, if_pos (by omega)]
  rw [h00]
  decide

theorem bumpProject_counts_sum (key name color : String) (l : List ProjectStats) :
    ((bumpProject key name color l).map ProjectStats.count).sum
      = (l.map ProjectStats.count).sum + 1 := by
  induction l with
  | nil => rfl
  | cons s rest ih =>
    by_cases h : s.projectId = key
    · simp only [bumpProject, if_pos h, List.map_cons, List.sum_cons]
      omega
    · simp only [bumpProject, if_neg h, List.map_cons, List.sum_cons, ih]
      omega

theorem foldl_bumpProject_sum (projects : List TodoistProject) :
    ∀ (tasks : List ProcessedTask) (acc : List ProjectStats),
      ((tasks.foldl
          (fun st t =>
            bumpProject (projectKeyInfo projects t).1 (projectKeyInfo projects t).2.1
              (projectKeyInfo projects t).2.2 st) acc).map ProjectStats.count).sum
        = (acc.map ProjectStats.count).sum + tasks.length := by
  intro tasks
  induction tasks with
  | nil => intro acc; simp
  | cons t ts ih =>
    intro acc
    rw [List.foldl_cons, ih, bumpProject_counts_sum]
    simp only [List.length_cons]
    omega

theorem projectFirstPass_sum_counts (tasks : List ProcessedTask)
    (projects : List TodoistProject) :
    ((projectFirstPass tasks projects).map ProjectStats.count).sum = tasks.length := by
  unfold projectFirstPass
  rw [foldl_bumpProject_sum]
  simp

theorem foldl_collapseStep_eq (thr : Int) :
    ∀ (l : List ProjectStats) (acc : List ProjectStats × Nat),
      l.foldl (collapseStep thr) acc
        = (acc.1 ++ l.filter (fun s => !(isSmallProject thr s)),
           acc.2 + ((l.filter (isSmallProject thr)).map ProjectStats.count).sum) := by
  intro l
  induction l with
  | nil => intro acc; simp
  | cons s rest ih =>
    intro acc
    rw [List.foldl_cons, ih]
    by_cases h : isSmallProject thr s
    · simp only [collapseStep, h, if_true, List.filter_cons, Bool.not_true,
        Bool.false_eq_true, if_false, if_true, List.map_cons, List.sum_cons]
      refine Prod.ext rfl ?_
      simp only []
      omega
    · have hb : isSmallProject thr s = false := by simpa using h
      simp only [collapseStep, hb, Bool.false_eq_true, if_false, List.filter_cons,
        Bool.not_false, if_true, List.append_assoc, List.singleton_append]

theorem sum_counts_filter_partition (q : ProjectStats → Bool) (l : List ProjectStats) :
    ((l.filter q).map ProjectStats.count).sum
      + ((l.filter (fun s => !(q s))).map ProjectStats.count).sum
      = (l.map ProjectStats.count).sum := by
  induction l with
  | nil => rfl
  | cons s rest ih =>
    cases h : q s <;>
      simp only [List.filter_cons, h, Bool.not_true, Bool.not_false, if_true,
        Bool.false_eq_true, if_false, List.map_cons, List.sum_cons] <;>
      omega

/-- `calculateProjectStats` in closed form: the first-pass buckets that
survive the threshold, plus the "Other" bucket exactly when its folded count
is positive, re-sorted by descending count. -/
theorem calculateProjectStats_eq (tasks : List ProcessedTask)
    (projects : List TodoistProject) (p : ℚ) (m : Int) :
    calculateProjectStats tasks projects p m
      = sortByCountDesc
          (((projectFirstPass tasks projects).filter
              (fun s => !(isSmallProject (actualThreshold tasks.length p m) s)))
            ++ (if 0 < foldedOtherCount tasks projects p m then
                  [otherBucket (foldedOtherCount tasks projects p m)] else [])) := by
  have hc : calculateProjectStats tasks projects p m
      = sortByCountDesc
          (if 0 < ((projectFirstPass tasks projects).foldl
                (collapseStep (actualThreshold tasks.length p m)) ([], 0)).2
           then ((projectFirstPass tasks projects).foldl
                  (collapseStep (actualThreshold tasks.length p m)) ([], 0)).1
              ++ [otherBucket (((projectFirstPass tasks projects).foldl
                    (collapseStep (actualThreshold tasks.length p m)) ([], 0)).2)]
           else ((projectFirstPass tasks projects).foldl
                  (collapseStep (actualThreshold tasks.length p m)) ([], 0)).1) := rfl
  rw [hc, foldl_collapseStep_eq]
  simp only [List.nil_append, Nat.zero_add]
  have hofc : foldedOtherCount tasks projects p m
      = (((projectFirstPass tasks projects).filter
            (isSmallProject (actualThreshold tasks.length p m))).map
          ProjectStats.count).sum := rfl
  rw [hofc]
  by_cases hpos : 0 < (((projectFirstPass tasks projects).filter
        (isSmallProject (actualThreshold tasks.length p m))).map ProjectStats.count).sum
  · rw [if_pos hpos, if_pos hpos]
  · rw [if_neg hpos, if_neg hpos, List.append_nil]

/-- C4: the standalone threshold of `calculateProjectStats` equals
`max(1, min(minThresholdCount, floor(totalTaskCount * thresholdPercent)))`,
and the output is exactly (up to the final descending-count re-sort, hence
as a permutation) the first-pass buckets that are not below-threshold
non-"no-project" buckets, plus a single synthetic `"other-projects"` bucket
accumulating the folded counts — present precisely when that accumulated
count is positive; `"no-project"` is never folded. -/
theorem calculateProjectStats_other_grouping (tasks : List ProcessedTask)
    (projects : List TodoistProject) (p : ℚ) (m : Int) :
    actualThreshold tasks.length p m
        = max 1 (min m ⌊(tasks.length : ℚ) * p⌋)
      ∧ (calculateProjectStats tasks projects p m).Perm
          (((projectFirstPass tasks projects).filter
              (fun s => !(isSmallProject (actualThreshold tasks.length p m) s)))
            ++ (if 0 < foldedOtherCount tasks projects p m then
                  [otherBucket (foldedOtherCount tasks projects p m)] else [])) :=
  ⟨rfl, by
    rw [calculateProjectStats_eq]
    exact stableSortBy_perm _ _⟩

/-- C5: the first-pass bucket counts sum to the number of input tasks, and
the output bucket counts (with any "Other" bucket) still sum to the same
number: task count is conserved across the "Other" collapsing. -/
theorem calculateProjectStats_conservation (tasks : List ProcessedTask)
    (projects : List TodoistProject) (p : ℚ) (m : Int) :
    ((projectFirstPass tasks projects).map ProjectStats.count).sum = tasks.length
      ∧ ((calculateProjectStats tasks projects p m).map ProjectStats.count).sum
          = tasks.length := by
  refine ⟨projectFirstPass_sum_counts tasks projects, ?_⟩
  rw [calculateProjectStats_eq]
  set thr := actualThreshold tasks.length p m with hthr
  set first := projectFirstPass tasks projects with hfirst
  set kept := first.filter (fun s => !(isSmallProject thr s)) with hkept
  set other := foldedOtherCount tasks projects p m with hother
  have hperm :
      (sortByCountDesc (kept ++ if 0 < other then [otherBucket other] else [])).Perm
        (kept ++ if 0 < other then [otherBucket other] else []) :=
    stableSortBy_perm _ _
  rw [(hperm.map ProjectStats.count).sum_eq, List.map_append, List.sum_append]
  have hpartition := sum_counts_filter_partition (isSmallProject thr) first
  rw [← hkept] at hpartition
  have hofc : other = ((first.filter (isSmallProject thr)).map ProjectStats.count).sum := by
    rw [hother, hthr, hfirst]
    rfl
  have htotal : (first.map ProjectStats.count).sum = tasks.length :=
    projectFirstPass_sum_counts tasks projects
  by_cases hpos : 0 < other
  · rw [if_pos hpos]
    simp only [otherBucket, List.map_cons, List.map_nil, List.sum_cons, List.sum_nil]
    omega
  · rw [if_neg hpos]
    simp only [List.map_nil, List.sum_nil]
    have hzero : other = 0 := by omega
    omega

theorem foldl_hourBump_eq (h : Int) (hh0 : 0 ≤ h) (hh23 : h ≤ 23) :
    ∀ (tasks : List ProcessedTask) (m : Int → Nat),
      tasks.foldl hourBump m h = m h + (tasks.filter (fun t => t.hour == h)).length := by
  intro tasks
  induction tasks with
  | nil => intro m; simp
  | cons t ts ih =>
    intro m
    rw [List.foldl_cons, ih]
    by_cases hin : 0 ≤ t.hour ∧ t.hour ≤ 23
    · by_cases hth : t.hour = h
      · have hbump : hourBump m t h = m h + 1 := by
          simp [hourBump, hth, hh0, hh23]
        have hp : (t.hour == h) = true := by simp [hth]
        rw [hbump, List.filter_cons, hp]
        simp only [if_true, List.length_cons]
        omega
      · have hbump : hourBump m t h = m h := by
          have : ¬(h = t.hour) := fun hh => hth hh.symm
          simp [hourBump, hin, this]
        have hp : (t.hour == h) = false := by simp [hth]
        rw [hbump, List.filter_cons, hp]
        simp
    · have hbump : hourBump m t = m := by simp [hourBump, hin]
      have hth : t.hour ≠ h := by
        rw [not_and_or] at hin
        omega
      have hp : (t.hour == h) = false := by simp [hth]
      rw [hbump, List.filter_cons, hp]
      simp

theorem hourCounts_eq (tasks : List ProcessedTask) (h : Int) (hh0 : 0 ≤ h)
    (hh23 : h ≤ 23) :
    hourCounts tasks h = (tasks.filter (fun t => t.hour == h)).length := by
  unfold hourCounts
  rw [foldl_hourBump_eq h hh0 hh23 tasks]
  simp

/-- `calculateHourStats` in closed form: for each hour 0..23 in order, the
bucket counts the tasks with exactly that hour. -/
theorem calculateHourStats_eq (tasks : List ProcessedTask) :
    calculateHourStats tasks
      = (List.range 24).map (fun h : Nat =>
          { hour := (h : Int),
            count := (tasks.filter (fun t => t.hour == (h : Int))).length }) := by
  unfold calculateHourStats sortByHourAsc
  rw [stableSortBy_eq_self]
  · apply List.map_congr_left
    intro h hmem
    have hlt : h < 24 := List.mem_range.mp hmem
    have h0 : (0 : Int) ≤ (h : Int) := by omega
    have h23 : (h : Int) ≤ 23 := by omega
    rw [hourCounts_eq tasks (h : Int) h0 h23]
  · refine List.pairwise_map.mpr ?_
    refine (List.pairwise_lt_range _).imp ?_
    intro h1 h2 h12
    simp only [decide_eq_false_iff_not, not_lt]
    omega

/-- C8: `calculateHourStats` always returns exactly 24 buckets, the hours
0..23 in ascending order, each counting the input tasks with that hour — so
tasks whose `hour` lies outside `[0, 23]` land in no bucket — and the empty
input yields 24 buckets that all have count 0. -/
theorem calculateHourStats_complete (tasks : List ProcessedTask) :
    calculateHourStats tasks
        = (List.range 24).map (fun h : Nat =>
            { hour := (h : Int),
              count := (tasks.filter (fun t => t.hour == (h : Int))).length })
      ∧ (calculateHourStats tasks).length = 24
      ∧ (calculateHourStats tasks).map HourStats.hour
          = (List.range 24).map (fun h : Nat => (h : Int))
      ∧ (calculateHourStats []).map HourStats.count = List.replicate 24 0 := by
  refine ⟨calculateHourStats_eq tasks, ?_, ?_, ?_⟩
  · rw [calculateHourStats_eq tasks, List.length_map, List.length_range]
  · rw [calculateHourStats_eq tasks, List.map_map]
    rfl
  · rw [calculateHourStats_eq ([] : List ProcessedTask)]
    decide

theorem specStep_eq_streakStep (lookup : Int → Option Nat) (earliest : Option Int)
    (todayIdx day : Int) (streak : Nat) :
    specStep lookup earliest todayIdx day streak
      = streakStep lookup earliest todayIdx day streak := rfl

theorem streakLoop_unfold (dayMap : Int → Option Nat) (earliest : Option Int)
    (todayIdx current : Int) (streak : Nat) :
    streakLoop dayMap earliest todayIdx current streak
      = match streakStep dayMap earliest todayIdx current streak with
        | none => streak
        | some s =>
            if 730 < todayIdx - (current - 1) then s
            else streakLoop dayMap earliest todayIdx (current - 1) s := by
  rw [streakLoop]
  cases hs : streakStep dayMap earliest todayIdx current streak with
  | none => rfl
  | some s =>
    have hne : ¬(current - 1 = current) := by omega
    by_cases hsafe : 730 < todayIdx - (current - 1)
    · simp [hsafe]
    · simp [hsafe, hne]

theorem specStreakWalk_unfold (lookup : Int → Option Nat) (earliest : Option Int)
    (todayIdx : Int) (k streak : Nat) :
    specStreakWalk lookup earliest todayIdx k streak
      = match specStep lookup earliest todayIdx (todayIdx - (k : Int)) streak with
        | none => streak
        | some s =>
            if 730 < k + 1 then s
            else specStreakWalk lookup earliest todayIdx (k + 1) s := by
  rw [specStreakWalk]

theorem streakLoop_eq_specStreakWalk (dayMap : Int → Option Nat) (earliest : Option Int)
    (todayIdx : Int) :
    ∀ (n k streak : Nat), 731 - k ≤ n →
      streakLoop dayMap earliest todayIdx (todayIdx - (k : Int)) streak
        = specStreakWalk dayMap earliest todayIdx k streak := by
  intro n
  induction n with
  | zero =>
    intro k streak hk
    rw [streakLoop_unfold, specStreakWalk_unfold]
    cases hs : streakStep dayMap earliest todayIdx (todayIdx - (k : Int)) streak with
    | none => simp only [specStep_eq_streakStep, hs]
    | some s =>
      simp only [specStep_eq_streakStep, hs]
      have h1 : 730 < todayIdx - (todayIdx - (k : Int) - 1) := by omega
      have h2 : 730 < k + 1 := by omega
      rw [if_pos h1, if_pos h2]
  | succ n ih =>
    intro k streak hk
    rw [streakLoop_unfold, specStreakWalk_unfold]
    cases hs : streakStep dayMap earliest todayIdx (todayIdx - (k : Int)) streak with
    | none => simp only [specStep_eq_streakStep, hs]
    | some s =>
      simp only [specStep_eq_streakStep, hs]
      by_cases hcond : 730 < k + 1
      · rw [if_pos (by omega : (730 : Int) < todayIdx - (todayIdx - (k : Int) - 1)),
          if_pos hcond]
      · rw [if_neg (by omega : ¬((730 : Int) < todayIdx - (todayIdx - (k : Int) - 1))),
          if_neg hcond]
        have harg : todayIdx - (k : Int) - 1 = todayIdx - ((k + 1 : Nat) : Int) := by
          push_cast
          ring
        rw [harg]
        exact ih (k + 1) s (by omega)

theorem specStreakWalk_empty (todayIdx : Int) :
    ∀ n k : Nat, 731 - k ≤ n →
      specStreakWalk (fun _ => none) none todayIdx k 0 = 0 := by
  intro n
  induction n with
  | zero =>
    intro k hk
    rw [specStreakWalk_unfold]
    have hs : specStep (fun _ => none) none todayIdx (todayIdx - (k : Int)) 0
        = some 0 := rfl
    simp only [hs]
    rw [if_pos (by omega : 730 < k + 1)]
  | succ n ih =>
    intro k hk
    rw [specStreakWalk_unfold]
    have hs : specStep (fun _ => none) none todayIdx (todayIdx - (k : Int)) 0
        = some 0 := rfl
    simp only [hs]
    by_cases hc : 730 < k + 1
    · rw [if_pos hc]
    · rw [if_neg hc]
      exact ih (k + 1) (by omega)

/-- C1: the current-streak computation of `calculateRecapStats` equals the
spec's reference backward walk from today's local midnight: a day present
with count > 0 increments the streak; an absent day stops the walk when it is
strictly before the earliest bucket date, stops it when a streak is already
in progress, and otherwise continues; a present day with count 0 stops the
walk unless it is today; and the walk stops unconditionally rather than going
back more than 730 days. -/
theorem currentStreak_matches_spec (todayIdx : Int) (dayStats : List DayStats)
    (projectStats : List ProjectStats) :
    (calculateRecapStats todayIdx dayStats projectStats).currentStreak
      = specCurrentStreak todayIdx dayStats := by
  have hc : (calculateRecapStats todayIdx dayStats projectStats).currentStreak
      = if dayStats.isEmpty then 0
        else streakLoop (dayLookup dayStats) (earliestDate dayStats) todayIdx todayIdx 0 :=
    rfl
  rw [hc]
  cases dayStats with
  | nil =>
    simp only [List.isEmpty_nil, if_true]
    unfold specCurrentStreak
    have h1 : dayLookup [] = fun _ => (none : Option Nat) := rfl
    have h2 : earliestDate [] = none := rfl
    rw [h1, h2]
    exact (specStreakWalk_empty todayIdx 731 0 (by omega)).symm
  | cons d ds =>
    simp only [List.isEmpty_cons, Bool.false_eq_true, if_false]
    unfold specCurrentStreak
    have h := streakLoop_eq_specStreakWalk (dayLookup (d :: ds)) (earliestDate (d :: ds))
      todayIdx 731 0 0 (by omega)
    simpa using h

/-- C9 counterexample: on the bucket list `[{date := day 5, count := 0}]`
with today = day 0, the claim's reading (the bucket with the maximum count,
ties to the first bucket in order) demands `bestDay = {date := day 5,
count := 0}`, but the code returns today's date: the reduction's seed
`{date: "", count: 0}` wins whenever every bucket count is 0. -/
theorem bestDay_counterexample :
    (calculateRecapStats 0 [{ date := 5, count := 0, tasks := [] }] []).bestDay
      ≠ { date := 5, count := 0 } := by
  decide

theorem bestFold_spec (ds : List DayStats) :
    ∀ acc : Option Int × Nat,
      (ds.foldl bestDayStep acc = acc ∧ ∀ d ∈ ds, d.count ≤ acc.2)
        ∨ ∃ pre b suf, ds = pre ++ b :: suf
            ∧ ds.foldl bestDayStep acc = (some b.date, b.count)
            ∧ acc.2 < b.count
            ∧ (∀ x ∈ pre, x.count < b.count)
            ∧ (∀ x ∈ suf, x.count ≤ b.count) := by
  induction ds with
  | nil =>
    intro acc
    left
    exact ⟨rfl, by simp⟩
  | cons d ds ih =>
    intro acc
    by_cases hd : acc.2 < d.count
    · have hstep : (d :: ds).foldl bestDayStep acc
          = ds.foldl bestDayStep (some d.date, d.count) := by
        rw [List.foldl_cons]
        unfold bestDayStep
        rw [if_pos hd]
      rcases ih (some d.date, d.count) with ⟨heq, hall⟩ |
        ⟨pre, b, suf, hsplit, heq, hlt, hpre, hsuf⟩
      · right
        refine ⟨[], d, ds, by simp, ?_, hd, by simp, ?_⟩
        · rw [hstep, heq]
        · intro x hx
          exact hall x hx
      · right
        refine ⟨d :: pre, b, suf, by rw [hsplit, List.cons_append], ?_, ?_, ?_, hsuf⟩
        · rw [hstep, heq]
        · exact lt_trans hd hlt
        · intro x hx
          rcases List.mem_cons.mp hx with rfl | hx'
          · exact hlt
          · exact hpre x hx'
    · have hstep : (d :: ds).foldl bestDayStep acc = ds.foldl bestDayStep acc := by
        rw [List.foldl_cons]
        unfold bestDayStep
        rw [if_neg hd]
      rcases ih acc with ⟨heq, hall⟩ | ⟨pre, b, suf, hsplit, heq, hlt, hpre, hsuf⟩
      · left
        refine ⟨by rw [hstep, heq], ?_⟩
        intro x hx
        rcases List.mem_cons.mp hx with rfl | hx'
        · omega
        · exact hall x hx'
      · right
        refine ⟨d :: pre, b, suf, by rw [hsplit, List.cons_append], ?_, hlt, ?_, hsuf⟩
        · rw [hstep, heq]
        · intro x hx
          rcases List.mem_cons.mp hx with rfl | hx'
          · omega
          · exact hpre x hx'

/-- C9 corrected: `bestDay` always carries the maximal bucket count, and when
some bucket has a positive count its date is the date of the first bucket
attaining that maximum (the scan replaces the running best only on a strictly
greater count); but when the bucket list is empty or every bucket count is 0,
the scan never leaves its `{date: "", count: 0}` seed and `bestDay` is
`{date: today's date, count: 0}` — even when buckets (with count 0) exist. -/
theorem bestDay_first_max_or_today (todayIdx : Int) (dayStats : List DayStats)
    (projectStats : List ProjectStats) :
    (∀ d ∈ dayStats,
        d.count ≤ (calculateRecapStats todayIdx dayStats projectStats).bestDay.count)
      ∧ ((∀ d ∈ dayStats, d.count = 0) →
          (calculateRecapStats todayIdx dayStats projectStats).bestDay
            = { date := todayIdx, count := 0 })
      ∧ ((∃ d ∈ dayStats, 0 < d.count) →
          ∃ pre b suf, dayStats = pre ++ b :: suf
            ∧ (calculateRecapStats todayIdx dayStats projectStats).bestDay
                = { date := b.date, count := b.count }
            ∧ ∀ x ∈ pre, x.count < b.count) := by
  have hbd : (calculateRecapStats todayIdx dayStats projectStats).bestDay
      = { date := (dayStats.foldl bestDayStep ((none : Option Int), 0)).1.getD todayIdx,
          count := (dayStats.foldl bestDayStep ((none : Option Int), 0)).2 } := rfl
  rcases bestFold_spec dayStats ((none : Option Int), 0) with ⟨heq, hall⟩ |
    ⟨pre, b, suf, hsplit, heq, hlt, hpre, hsuf⟩
  · refine ⟨?_, ?_, ?_⟩
    · intro d hd
      rw [hbd, heq]
      exact hall d hd
    · intro _
      rw [hbd, heq]
      rfl
    · rintro ⟨d, hd, hpos⟩
      have := hall d hd
      omega
  · refine ⟨?_, ?_, ?_⟩
    · intro d hd
      rw [hbd, heq]
      rw [hsplit] at hd
      rcases List.mem_append.mp hd with h | h
      · exact le_of_lt (hpre d h)
      · rcases List.mem_cons.mp h with rfl | h'
        · exact le_refl _
        · exact hsuf d h'
    · intro hzero
      have hb : b ∈ dayStats := by
        rw [hsplit]
        exact List.mem_append_right _ (List.mem_cons_self _ _)
      have := hzero b hb
      omega
    · intro _
      exact ⟨pre, b, suf, hsplit, by rw [hbd, heq]; rfl, hpre⟩

end TodoistFlow
